import Mathlib

/-!
# Verification of the Secret-Santa group manager (`src/app.py`)

A shallow embedding of the core logic of the Streamlit application:
the group data model (`Group`, stored in a JSON document modelled as an
association list `Store`), the participant-confirmation flow, the
derangement-drawing loop, the reveal flow, the creator maintenance
operations (clear confirmation, reset draw, add / rename / remove
participant, rename group, rotate creator password, issue temporary
password) and group creation with its name normalization and
case-insensitive deduplication.

Python dictionaries keyed by strings become association lists with the
usual first-match lookup; `random.shuffle` becomes an explicit stream of
permutation attempts `Nat → List String` consumed by the retry loop;
`hashlib.sha256` is an abstract parameter `hash : String → String` since
the logic only ever compares digests for equality.
-/

namespace AmigoSecreto

/-- Decidable equality of `Except` results, used to evaluate concrete
outcomes of the fallible operations. -/
instance {ε α : Type} [DecidableEq ε] [DecidableEq α] : DecidableEq (Except ε α)
  | .error e, .error f =>
    if h : e = f then .isTrue (by rw [h])
    else .isFalse (by intro hh; cases hh; exact h rfl)
  | .error _, .ok _ => .isFalse (by intro hh; cases hh)
  | .ok _, .error _ => .isFalse (by intro hh; cases hh)
  | .ok a, .ok b =>
    if h : a = b then .isTrue (by rw [h])
    else .isFalse (by intro hh; cases hh; exact h rfl)

/-! ## Python string primitives used by `app.py`

`str.strip` / `str.split` / `str.title` / `str.lower`, modelled on the
ASCII fragment (the application handles names typed into a form). -/

/-- Whitespace characters recognized by Python's `str.split()` / `str.strip()`
(space, tab, newline, carriage return, vertical tab, form feed). -/
def isPySpace (c : Char) : Bool :=
  c == ' ' || c == '\t' || c == '\n' || c == '\r' || c == Char.ofNat 11 || c == Char.ofNat 12

/-- Python `str.strip()`: drop leading and trailing whitespace. -/
def pyStrip (s : String) : String :=
  String.mk (((s.toList.dropWhile isPySpace).reverse.dropWhile isPySpace).reverse)

/-- Helper for `str.split()`: split a character list into maximal runs of
non-whitespace characters, dropping all whitespace. `acc` is the current
run, reversed. -/
def wordsAux : List Char → List Char → List (List Char)
  | [], acc => if acc.isEmpty then [] else [acc.reverse]
  | c :: cs, acc =>
    if isPySpace c then
      if acc.isEmpty then wordsAux cs [] else acc.reverse :: wordsAux cs []
    else wordsAux cs (c :: acc)

/-- The cleaning step `" ".join(raw.split())`: collapse internal whitespace runs to a single
space and strip the ends (the `cleaned` value in `show_home_page`). -/
def pyCleanName (s : String) : String :=
  String.mk (List.intercalate [' '] (wordsAux s.toList []))

/-- Helper for `str.title()`: uppercase each alphabetic character that
follows a non-alphabetic one, lowercase the rest. -/
def titleAux : Bool → List Char → List Char
  | _, [] => []
  | prevAlpha, c :: cs =>
    if c.isAlpha then
      (if prevAlpha then c.toLower else c.toUpper) :: titleAux true cs
    else c :: titleAux false cs

/-- Python `str.title()`. -/
def pyTitle (s : String) : String :=
  String.mk (titleAux false s.toList)

/-- Python `str.lower()`. -/
def pyLower (s : String) : String :=
  String.mk (s.toList.map Char.toLower)

/-! ## Python dictionaries as association lists

String-keyed `dict`s of `app.py` become `List (String × α)` with
first-match lookup; `d[k] = v` updates in place or appends, `d.pop(k, None)`
removes the key. -/

/-- Lookup `d.get(k)`: first-match lookup. -/
def dictGet {α : Type} (d : List (String × α)) (k : String) : Option α :=
  match d with
  | [] => none
  | p :: rest => if p.1 = k then some p.2 else dictGet rest k

/-- Assignment `d[k] = v`: replace the value in place if `k` is present, else append. -/
def dictSet {α : Type} (d : List (String × α)) (k : String) (v : α) : List (String × α) :=
  match d with
  | [] => [(k, v)]
  | p :: rest => if p.1 = k then (k, v) :: rest else p :: dictSet rest k v

/-- Removal `d.pop(k, None)`: remove the entry for `k` if present. -/
def dictPop {α : Type} (d : List (String × α)) (k : String) : List (String × α) :=
  d.filter (fun p => p.1 ≠ k)

/-! ## The group data model (the JSON objects of `groups.json`) -/

/-- One secret-santa group, with the fields stored in `groups.json`.
`participants_confirmed` maps a participant name to the SHA-256 hash of the
password they confirmed with; `pending_passwords` maps a name to the hash
of a creator-issued temporary password; `assignments` maps each giver to
their recipient once `drawn` is true. -/
structure Group where
  name : String
  creator_password_hash : String
  participants : List String
  participants_confirmed : List (String × String)
  pending_passwords : List (String × String)
  drawn : Bool
  assignments : List (String × String)
deriving DecidableEq

/-- The whole persisted document: group id → group. -/
abbrev Store : Type := List (String × Group)

/-! ## Confirmation flow (`show_group_page`, lines 275–290) -/

inductive ConfirmError where
  | AlreadyConfirmed
  | EmptyPassword
  | MustUseIssuedPassword
deriving DecidableEq

/-- The participant-confirmation flow.  The form is only rendered when the
selected name has no confirmed hash (`confirmed_hash is None`), which is the
`AlreadyConfirmed` failure; then a blank password is rejected; then, if a
creator-issued temporary password is pending for the name, the supplied
password must hash to it; otherwise the hash is recorded and any pending
entry is dropped.  Failure branches leave the group untouched. -/
def confirmParticipation (hash : String → String) (g : Group)
    (name password : String) : Group × Option ConfirmError :=
  match dictGet g.participants_confirmed name with
  | some _ => (g, some .AlreadyConfirmed)
  | none =>
    if pyStrip password = "" then (g, some .EmptyPassword)
    else
      let pend := dictGet g.pending_passwords name
      if pend.isSome && (pend != some (hash password)) then
        (g, some .MustUseIssuedPassword)
      else
        ({ g with
            participants_confirmed := dictSet g.participants_confirmed name (hash password)
            pending_passwords := dictPop g.pending_passwords name }, none)

/-! ## The draw (`show_group_page`, lines 299–324 and 384–411)

`random.shuffle(assignments)` repeatedly permutes the working copy in
place, so each iteration observes some permutation of the roster; we model
the sequence of shuffle results as a stream `shuffles : Nat → List String`.
The `while True` loop breaks on the first derangement; the counter starts
at 0, is incremented after each failed attempt, and the loop aborts once it
exceeds `max_attempts = 1000` — i.e. after 1001 failed shuffles. -/

inductive DrawError where
  | AlreadyDrawn
  | InsufficientParticipants
  | DrawFailed
deriving DecidableEq

/-- The derangement test `all(assignments[i] != names[i] for i in range(len(names)))`. -/
def isDerangement (names a : List String) : Bool :=
  (List.range names.length).all (fun i => a.getD i "" != names.getD i "")

/-- The retry loop: starting at attempt index `k` with `fuel` attempts
left, return the first shuffle that is a derangement of `names`. -/
def drawLoop (names : List String) (shuffles : Nat → List String) :
    Nat → Nat → Option (List String)
  | _, 0 => none
  | k, fuel + 1 =>
    if isDerangement names (shuffles k) then some (shuffles k)
    else drawLoop names shuffles (k + 1) fuel

/-- The draw over a name list: rejects fewer than two participants before
consuming any shuffle; otherwise runs the bounded retry loop (1 initial
attempt + 1000 retries) and builds
`{names[i]: assignments[i] for i in range(len(names))}`. -/
def draw (names : List String) (shuffles : Nat → List String) :
    Except DrawError (List (String × String)) :=
  if names.length < 2 then .error .InsufficientParticipants
  else
    match drawLoop names shuffles 0 1001 with
    | some a => .ok ((List.range names.length).map (fun i => (names.getD i "", a.getD i "")))
    | none => .error .DrawFailed

/-- The draw applied to a group (the creator path checks `drawn` first; on
the auto path the same check is the enclosing `elif`).  On success the
assignment map is stored and `drawn` set; every failure leaves the group
unchanged. -/
def drawGroup (g : Group) (shuffles : Nat → List String) : Group × Option DrawError :=
  if g.drawn then (g, some .AlreadyDrawn)
  else
    match draw g.participants shuffles with
    | .ok asg => ({ g with assignments := asg, drawn := true }, none)
    | .error e => (g, some e)

/-! ## Reveal flow (`show_group_page`, lines 326–344) -/

inductive RevealError where
  | NotConfirmed
  | WrongPassword
  | NotDrawnYet
deriving DecidableEq

/-- The reveal flow.  The whole form is rendered only under `if draw_done:`
— on an undrawn group the operation is unavailable, which the spec
surfaces as `NotDrawnYet`; inside, the checks run in source order:
unconfirmed name, wrong password, then `assignments.get(name)` with
Python truthiness (a missing or empty recipient reads as not drawn).
No branch modifies the group (the body only reads `group`). -/
def revealAssignment (hash : String → String) (g : Group)
    (name password : String) : Except RevealError String :=
  if g.drawn then
    match dictGet g.participants_confirmed name with
    | none => .error .NotConfirmed
    | some stored =>
      if hash password ≠ stored then .error .WrongPassword
      else
        match dictGet g.assignments name with
        | some amigo => if amigo ≠ "" then .ok amigo else .error .NotDrawnYet
        | none => .error .NotDrawnYet
  else .error .NotDrawnYet

/-! ## Creator maintenance operations (`show_group_page`, lines 419–674) -/

/-- Clearing a participant's confirmation (lines 455–468): drops their
confirmed and pending hashes, pops them as an assignment key and filters
them out as an assignment value; nothing else changes (in particular the
roster and the `drawn` flag stay). -/
def clearConfirmation (g : Group) (p : String) : Group :=
  { g with
      participants_confirmed := dictPop g.participants_confirmed p
      pending_passwords := dictPop g.pending_passwords p
      assignments := (dictPop g.assignments p).filter (fun kv => kv.2 ≠ p) }

/-- Resetting the draw (lines 480–488): empties `assignments` and clears
`drawn`, leaving confirmations untouched. -/
def resetDraw (g : Group) : Group :=
  { g with assignments := [], drawn := false }

inductive RenameGroupError where
  | EmptyName
deriving DecidableEq

/-- Renaming the group (lines 425–432): the stripped name must be nonempty. -/
def renameGroup (g : Group) (newName : String) : Group × Option RenameGroupError :=
  let cleaned := pyStrip newName
  if cleaned = "" then (g, some .EmptyName)
  else ({ g with name := cleaned }, none)

inductive AddError where
  | AlreadyDrawn
  | EmptyName
  | DuplicateName
deriving DecidableEq

/-- Adding a participant (lines 498–512): rejected after the draw; the name
is stripped; an empty name is rejected; the duplicate check is plain
(case-sensitive) membership `name_to_add in group["participants"]`. -/
def addParticipant (g : Group) (newParticipant : String) : Group × Option AddError :=
  if g.drawn then (g, some .AlreadyDrawn)
  else
    let nameToAdd := pyStrip newParticipant
    if nameToAdd = "" then (g, some .EmptyName)
    else if nameToAdd ∈ g.participants then (g, some .DuplicateName)
    else ({ g with participants := g.participants ++ [nameToAdd] }, none)

inductive RemoveError where
  | AlreadyDrawn
deriving DecidableEq

/-- Removing a participant (lines 650–674): rejected after the draw;
otherwise drops them from the roster, both hash maps and both sides of the
assignments. -/
def removeParticipant (g : Group) (p : String) : Group × Option RemoveError :=
  if g.drawn then (g, some .AlreadyDrawn)
  else
    ({ g with
        participants := g.participants.filter (fun q => q ≠ p)
        participants_confirmed := dictPop g.participants_confirmed p
        pending_passwords := dictPop g.pending_passwords p
        assignments := (dictPop g.assignments p).filter (fun kv => kv.2 ≠ p) }, none)

/-- The roster update `participants[idx] = cleaned` where `idx = participants.index(old)`:
replace the first occurrence. -/
def replaceFirst : List String → String → String → List String
  | [], _, _ => []
  | x :: xs, old, c => if x = old then c :: xs else x :: replaceFirst xs old c

/-- Key renaming `if old in d: d[new] = d.pop(old)`. -/
def renameKey (d : List (String × String)) (old c : String) : List (String × String) :=
  match dictGet d old with
  | some v => dictSet (dictPop d old) c v
  | none => d

inductive RenameError where
  | AlreadyDrawn
  | EmptyName
  | DuplicateName
deriving DecidableEq

/-- Renaming a participant (lines 602–638): rejected after the draw; the
new name is stripped and must be nonempty; the duplicate check is plain
(case-sensitive) membership; on success the roster entry is replaced and
the rename propagates into the two hash maps, the assignment keys and the
assignment values. -/
def renameParticipant (g : Group) (old newName : String) : Group × Option RenameError :=
  if g.drawn then (g, some .AlreadyDrawn)
  else
    let cleaned := pyStrip newName
    if cleaned = "" then (g, some .EmptyName)
    else if cleaned ∈ g.participants then (g, some .DuplicateName)
    else
      ({ g with
          participants := replaceFirst g.participants old cleaned
          participants_confirmed := renameKey g.participants_confirmed old cleaned
          pending_passwords := renameKey g.pending_passwords old cleaned
          assignments :=
            (renameKey g.assignments old cleaned).map
              (fun kv => if kv.2 = old then (kv.1, cleaned) else kv) }, none)

inductive PwError where
  | EmptyPassword
  | Mismatch
deriving DecidableEq

/-- Rotating the creator password (lines 529–543). -/
def updateCreatorPassword (hash : String → String) (g : Group)
    (newPw confirmPw : String) : Group × Option PwError :=
  if pyStrip newPw = "" then (g, some .EmptyPassword)
  else if newPw ≠ confirmPw then (g, some .Mismatch)
  else ({ g with creator_password_hash := hash newPw }, none)

/-- Issuing a temporary password (lines 559–579):
`temp = custom.strip() or generate_temp_password()`; the participant's
confirmed hash is dropped and the hash of the temporary password stored as
pending.  `generated` stands for the fresh `generate_temp_password()`
token. -/
def issueTempPassword (hash : String → String) (g : Group)
    (p customTemp generated : String) : Group :=
  let temp := if pyStrip customTemp = "" then generated else pyStrip customTemp
  { g with
      participants_confirmed := dictPop g.participants_confirmed p
      pending_passwords := dictSet g.pending_passwords p (hash temp) }

/-! ## Group creation (`show_home_page`, lines 694–753) -/

/-- Set insertion `set.add`, modelled on a duplicate-free list kept in insertion order. -/
def insertNew (d : List String) (x : String) : List String :=
  if x ∈ d then d else d ++ [x]

/-- The normalization loop over the textarea lines: each raw line is
whitespace-collapsed; blank lines are skipped; the survivor is
title-cased, and its lowercase form is used to detect case-insensitive
duplicates (`seen`), which are collected (`dupAcc`) instead of being
added to the roster (`normAcc`). -/
def collectLoop : List String → List String → List String → List String →
    List String × List String
  | [], normAcc, dupAcc, _ => (normAcc, dupAcc)
  | raw :: rest, normAcc, dupAcc, seen =>
    let cleaned := pyCleanName raw
    if cleaned = "" then collectLoop rest normAcc dupAcc seen
    else
      let normalized := pyTitle cleaned
      let normalizedLower := pyLower normalized
      if normalizedLower ∈ seen then
        collectLoop rest normAcc (insertNew dupAcc normalized) seen
      else
        collectLoop rest (normAcc ++ [normalized]) dupAcc (seen ++ [normalizedLower])

/-- Insertion into a sorted list, for `sorted(duplicate_names)`. -/
def insertSorted (x : String) : List String → List String
  | [] => [x]
  | y :: ys => if x ≤ y then x :: y :: ys else y :: insertSorted x ys

/-- Python `sorted(...)` on strings (lexicographic). -/
def sortStrings (l : List String) : List String :=
  l.foldr insertSorted []

/-- What one textarea line contributes to the roster (absent duplicates):
`none` for a blank line, otherwise the collapsed, title-cased name. -/
def normLine (l : String) : Option String :=
  let cleaned := pyCleanName l
  if cleaned = "" then none else some (pyTitle cleaned)

inductive CreateError where
  | EmptyGroupName
  | EmptyCreatorPassword
  | DuplicateNames (names : List String)
  | TooFewParticipants
deriving DecidableEq

/-- Group creation: normalizes and deduplicates the participant lines,
then rejects an empty group name (`if not group_name`), a blank creator
password, any case-insensitive duplicates (reported sorted), or fewer
than two surviving participants; on success stores a fresh group under
`gid` (the `uuid4().hex` value) with empty maps and `drawn = False`. -/
def createGroup (hash : String → String) (groupName creatorPw : String)
    (lines : List String) (gid : String) (data : Store) : Store × Option CreateError :=
  let collected := collectLoop lines [] [] []
  if groupName = "" then (data, some .EmptyGroupName)
  else if pyStrip creatorPw = "" then (data, some .EmptyCreatorPassword)
  else if collected.2 ≠ [] then (data, some (.DuplicateNames (sortStrings collected.2)))
  else if collected.1.length < 2 then (data, some .TooFewParticipants)
  else
    (dictSet data gid
      { name := groupName
        creator_password_hash := hash creatorPw
        participants := collected.1
        participants_confirmed := []
        pending_passwords := []
        drawn := false
        assignments := [] }, none)

/-! ## Association-list lemmas -/

theorem dictGet_dictPop_self {α : Type} (d : List (String × α)) (k : String) :
    dictGet (dictPop d k) k = none := by
  induction d with
  | nil => rfl
  | cons p rest ih =>
    by_cases h : p.1 = k
    · simpa [dictPop, List.filter, h] using ih
    · simpa [dictPop, List.filter, h, dictGet] using ih

theorem dictGet_dictPop_ne {α : Type} (d : List (String × α)) (k q : String)
    (h : q ≠ k) : dictGet (dictPop d k) q = dictGet d q := by
  have hkq : ¬k = q := Ne.symm h
  induction d with
  | nil => rfl
  | cons p rest ih =>
    by_cases hp : p.1 = k
    · simpa [dictPop, List.filter_cons, hp, dictGet, hkq] using ih
    · by_cases hq : p.1 = q
      · simp [dictPop, List.filter_cons, hp, dictGet, hq, h]
      · simpa [dictPop, List.filter_cons, hp, dictGet, hq] using ih

theorem dictGet_dictSet_self {α : Type} (d : List (String × α)) (k : String) (v : α) :
    dictGet (dictSet d k v) k = some v := by
  induction d with
  | nil => simp [dictSet, dictGet]
  | cons p rest ih =>
    by_cases h : p.1 = k <;> simp [dictSet, h, dictGet, ih]

theorem dictGet_dictSet_ne {α : Type} (d : List (String × α)) (k q : String) (v : α)
    (h : q ≠ k) : dictGet (dictSet d k v) q = dictGet d q := by
  have hkq : ¬k = q := Ne.symm h
  induction d with
  | nil => simp [dictSet, dictGet, hkq]
  | cons p rest ih =>
    by_cases hp : p.1 = k
    · have hpq : ¬p.1 = q := by rw [hp]; exact hkq
      simp [dictSet, hp, dictGet, hkq, hpq]
    · simp [dictSet, hp, dictGet, ih]

theorem dictPop_sublist {α : Type} (d : List (String × α)) (k : String) :
    (dictPop d k).Sublist d :=
  List.filter_sublist d

theorem mem_dictPop {α : Type} (d : List (String × α)) (k : String) (kv : String × α) :
    kv ∈ dictPop d k ↔ kv ∈ d ∧ kv.1 ≠ k := by
  simp [dictPop, List.mem_filter]

/-! ## Draw-loop lemmas -/

theorem isDerangement_iff (names a : List String) :
    isDerangement names a = true ↔ ∀ i, i < names.length → a.getD i "" ≠ names.getD i "" := by
  simp [isDerangement, List.all_eq_true, List.mem_range]

theorem drawLoop_eq_some (names : List String) (s : Nat → List String) :
    ∀ fuel k a, drawLoop names s k fuel = some a →
      ∃ j, k ≤ j ∧ j < k + fuel ∧ isDerangement names (s j) = true ∧ a = s j := by
  intro fuel
  induction fuel with
  | zero => intro k a h; simp [drawLoop] at h
  | succ n ih =>
    intro k a h
    rw [drawLoop] at h
    split at h
    · next hder => exact ⟨k, le_rfl, by omega, hder, (Option.some_inj.mp h).symm⟩
    · obtain ⟨j, h1, h2, h3, h4⟩ := ih (k + 1) a h
      exact ⟨j, by omega, by omega, h3, h4⟩

theorem drawLoop_eq_none (names : List String) (s : Nat → List String) :
    ∀ fuel k, drawLoop names s k fuel = none ↔
      ∀ j, k ≤ j → j < k + fuel → isDerangement names (s j) = false := by
  intro fuel
  induction fuel with
  | zero =>
    intro k
    constructor
    · intro _ j h1 h2; omega
    · intro _; rfl
  | succ n ih =>
    intro k
    rw [drawLoop]
    split
    · next hder =>
      constructor
      · intro h; cases h
      · intro h
        have := h k le_rfl (by omega)
        rw [hder] at this
        cases this
    · next hder =>
      rw [ih (k + 1)]
      constructor
      · intro h j hj1 hj2
        rcases Nat.eq_or_lt_of_le hj1 with rfl | hlt
        · exact Bool.eq_false_iff.mpr hder
        · exact h j hlt (by omega)
      · intro h j hj1 hj2
        exact h j (by omega) (by omega)

theorem drawLoop_congr (names : List String) (s s' : Nat → List String) :
    ∀ fuel k, (∀ j, k ≤ j → j < k + fuel → s j = s' j) →
      drawLoop names s k fuel = drawLoop names s' k fuel := by
  intro fuel
  induction fuel with
  | zero => intro k _; rfl
  | succ n ih =>
    intro k h
    rw [drawLoop, drawLoop, h k le_rfl (by omega)]
    split
    · rfl
    · exact ih (k + 1) (fun j h1 h2 => h j (by omega) (by omega))

theorem rangeMap_eq_zip :
    ∀ (l1 l2 : List String), l2.length = l1.length →
      (List.range l1.length).map (fun i => (l1.getD i "", l2.getD i "")) = l1.zip l2 := by
  intro l1
  induction l1 with
  | nil => intro l2 h; simp
  | cons x xs ih =>
    intro l2 h
    cases l2 with
    | nil => simp at h
    | cons y ys =>
      have hlen : ys.length = xs.length := by simpa using h
      simp only [List.length_cons, List.range_succ_eq_map, List.map_cons, List.map_map,
        List.zip_cons_cons, List.getD_cons_zero, Function.comp]
      rw [← ih ys hlen]
      simp [List.getD_cons_succ]

theorem zip_no_fixpoint (names a : List String) (hlen : a.length = names.length)
    (hder : isDerangement names a = true) : ∀ kv ∈ names.zip a, kv.1 ≠ kv.2 := by
  intro kv hkv
  rw [List.mem_iff_getElem] at hkv
  obtain ⟨i, hi, hget⟩ := hkv
  have hi1 : i < names.length := by
    rw [List.length_zip] at hi; omega
  have hi2 : i < a.length := by omega
  rw [List.getElem_zip] at hget
  have hne := (isDerangement_iff names a).1 hder i hi1
  rw [List.getD_eq_getElem names "" hi1, List.getD_eq_getElem a "" hi2] at hne
  rw [← hget]
  exact fun hh => hne hh.symm

/-- What a successful engine draw returns: the roster was big enough, and
the result pairs each name with the corresponding entry of the first
derangement found among the shuffle attempts. -/
theorem draw_ok_spec (names : List String) (s : Nat → List String)
    (pairs : List (String × String)) (hperm : ∀ k, (s k).Perm names)
    (h : draw names s = .ok pairs) :
    2 ≤ names.length ∧
      ∃ a, a.Perm names ∧ isDerangement names a = true ∧ pairs = names.zip a := by
  unfold draw at h
  split at h
  · cases h
  · next hlen =>
    refine ⟨by omega, ?_⟩
    split at h
    · next a heq =>
      obtain ⟨j, _, _, hder, rfl⟩ := drawLoop_eq_some names s 1001 0 a heq
      refine ⟨s j, hperm j, hder, ?_⟩
      have := rangeMap_eq_zip names (s j) ((hperm j).length_eq)
      rw [← this]
      exact (Except.ok.injEq _ _ ▸ h).symm ▸ rfl
    · cases h

/-- What the assignment built from a derangement satisfies: its keys are
exactly the roster in order, its values are a permutation of the roster,
it has one entry per participant, and no participant is paired with
themselves. -/
theorem zip_derangement_complete (names a : List String)
    (hap : a.Perm names) (hder : isDerangement names a = true) :
    ((names.zip a).map Prod.fst).Perm names ∧
    ((names.zip a).map Prod.snd).Perm names ∧
    (names.zip a).length = names.length ∧
    ∀ kv ∈ names.zip a, kv.1 ≠ kv.2 := by
  have hlen : a.length = names.length := hap.length_eq
  refine ⟨?_, ?_, ?_, zip_no_fixpoint names a hlen hder⟩
  · rw [List.map_fst_zip names a (le_of_eq hlen.symm)]
  · rw [List.map_snd_zip names a (le_of_eq hlen)]
    exact hap
  · rw [List.length_zip, hlen, Nat.min_self]

/-! ## Concrete fixtures used by witnesses and counterexamples -/

/-- The identity digest function, standing in for SHA-256 in concrete
computations (the logic only compares digests for equality). -/
def hashId : String → String := fun s => s

/-- The group produced by creating a group named `G` with creator password
`pw` and roster `Ana`, `Bruno` (under `hashId`). -/
def gCreated : Group :=
  { name := "G", creator_password_hash := "pw", participants := ["Ana", "Bruno"],
    participants_confirmed := [], pending_passwords := [], drawn := false, assignments := [] }

/-- A drawn two-person group whose assignment is the swap derangement. -/
def gDrawn : Group :=
  { name := "G", creator_password_hash := "pw", participants := ["Ana", "Bruno"],
    participants_confirmed := [("Ana", "a"), ("Bruno", "b")], pending_passwords := [],
    drawn := true, assignments := [("Ana", "Bruno"), ("Bruno", "Ana")] }

/-- An undrawn one-person group. -/
def gSolo : Group :=
  { name := "S", creator_password_hash := "pw", participants := ["Ana"],
    participants_confirmed := [], pending_passwords := [], drawn := false, assignments := [] }

/-- A shuffle stream whose first 1000 attempts are the identity arrangement
and whose 1001st attempt is the swap derangement. -/
def sLate : Nat → List String := fun k => if k < 1000 then ["A", "B"] else ["B", "A"]

/-- A shuffle stream that always returns the swap derangement. -/
def sSwap : Nat → List String := fun _ => ["B", "A"]

/-- A shuffle stream that always swaps `Ana` and `Bruno`. -/
def sSwapAB : Nat → List String := fun _ => ["Bruno", "Ana"]

/-! ## C1 -/

/-- C1: for an ordered list of at least 2 distinct names, whenever the draw
succeeds it pairs `names[i]` with `a[i]` for some permutation `a` of the
names, and the resulting assignment is a bijection over the names (keys are
exactly the names, values enumerate each name exactly once) with no fixed
points. -/
theorem C1_draw_success_bijective_derangement
    (names : List String) (s : Nat → List String) (pairs : List (String × String))
    (hnd : names.Nodup) (hperm : ∀ k, (s k).Perm names)
    (hok : draw names s = .ok pairs) :
    ∃ a, a.Perm names ∧ pairs = names.zip a ∧
      pairs.map Prod.fst = names ∧
      (pairs.map Prod.snd).Perm names ∧
      (pairs.map Prod.snd).Nodup ∧
      ∀ kv ∈ pairs, kv.1 ≠ kv.2 := by
  obtain ⟨h2, a, hap, hder, rfl⟩ := draw_ok_spec names s pairs hperm hok
  have hlen : a.length = names.length := hap.length_eq
  refine ⟨a, hap, rfl, ?_, ?_, ?_, zip_no_fixpoint names a hlen hder⟩
  · exact List.map_fst_zip names a (le_of_eq hlen.symm)
  · rw [List.map_snd_zip names a (le_of_eq hlen)]
    exact hap
  · rw [List.map_snd_zip names a (le_of_eq hlen)]
    exact hap.nodup_iff.mpr hnd

/-- Witness for C1 at the roster `A`, `B` with the constant swap stream. -/
theorem C1_witness :
    ∃ a, a.Perm ["A", "B"] ∧
      ([("A", "B"), ("B", "A")] : List (String × String)) = List.zip ["A", "B"] a ∧
      ([("A", "B"), ("B", "A")] : List (String × String)).map Prod.fst = ["A", "B"] ∧
      (([("A", "B"), ("B", "A")] : List (String × String)).map Prod.snd).Perm ["A", "B"] ∧
      (([("A", "B"), ("B", "A")] : List (String × String)).map Prod.snd).Nodup ∧
      ∀ kv ∈ ([("A", "B"), ("B", "A")] : List (String × String)), kv.1 ≠ kv.2 :=
  C1_draw_success_bijective_derangement ["A", "B"] sSwap [("A", "B"), ("B", "A")]
    (by decide) (fun _ => (by decide : (["B", "A"] : List String).Perm ["A", "B"])) (by rfl)

/-! ## C5 -/

/-- C5: on a roster with fewer than two names the draw fails with
`InsufficientParticipants` without consuming any shuffle (the result is the
same for every shuffle stream), and the group is unchanged. -/
theorem C5_too_few_participants (g : Group) (s : Nat → List String)
    (hlen : g.participants.length < 2) (hdrawn : g.drawn = false) :
    draw g.participants s = .error .InsufficientParticipants ∧
    drawGroup g s = (g, some .InsufficientParticipants) := by
  have h1 : draw g.participants s = .error .InsufficientParticipants := by
    unfold draw
    rw [if_pos hlen]
  exact ⟨h1, by simp [drawGroup, hdrawn, h1]⟩

/-- Witness for C5 on a one-person group (the claim also covers the empty
roster, which the same theorem handles). -/
theorem C5_witness :
    draw gSolo.participants (fun _ => []) = .error .InsufficientParticipants ∧
    drawGroup gSolo (fun _ => []) = (gSolo, some .InsufficientParticipants) :=
  C5_too_few_participants gSolo (fun _ => []) (by decide) (by decide)

/-! ## C4 -/

set_option maxRecDepth 100000 in
/-- C4 counterexample: a run in which the first 1000 generated permutations
are all rejected (none is a derangement) and yet the draw still succeeds —
it consumes a 1001st shuffle, so the loop generates up to 1001 attempts,
not at most 1000 as claimed (the counter is incremented after a failed
attempt and only `attempts > 1000` aborts). -/
theorem C4_counterexample :
    (∀ k, k < 1000 → isDerangement ["A", "B"] (sLate k) = false) ∧
    draw ["A", "B"] sLate = .ok [("A", "B"), ("B", "A")] := by
  constructor
  · decide
  · rfl

/-- C4 (amended): the retry loop is bounded and terminating, generating at
most 1001 permutation attempts (the initial attempt plus 1000 retries):
the outcome only depends on the first 1001 shuffles, the draw fails with
`DrawFailed` exactly when all 1001 attempts fail, and a failed draw leaves
the group unchanged. -/
theorem C4_amended_bounded_retries
    (names : List String) (s s' : Nat → List String) (g : Group)
    (h2 : 2 ≤ names.length) :
    (draw names s = .error .DrawFailed ↔
      ∀ j, j ≤ 1000 → isDerangement names (s j) = false) ∧
    ((∀ j, j ≤ 1000 → s j = s' j) → draw names s = draw names s') ∧
    (∀ e, (drawGroup g s).2 = some e → (drawGroup g s).1 = g) := by
  refine ⟨?_, ?_, ?_⟩
  · unfold draw
    rw [if_neg (by omega)]
    cases heq : drawLoop names s 0 1001 with
    | some a =>
      constructor
      · intro h
        cases h
      · intro hall
        obtain ⟨j, _, hj2, hder, _⟩ := drawLoop_eq_some names s 1001 0 a heq
        rw [hall j (by omega)] at hder
        cases hder
    | none =>
      constructor
      · intro _ j hj
        exact (drawLoop_eq_none names s 1001 0).1 heq j (Nat.zero_le j) (by omega)
      · intro _
        rfl
  · intro h
    unfold draw
    rw [drawLoop_congr names s s' 1001 0 (fun j _ hj => h j (by omega))]
  · intro e
    unfold drawGroup
    by_cases hd : g.drawn
    · rw [if_pos hd]
      intro _
      rfl
    · rw [if_neg hd]
      cases hdr : draw g.participants s with
      | ok asg => intro h; cases h
      | error e' => intro _; rfl

/-- Witness for C4 (amended) with a stream that never produces a
derangement, on a two-person roster. -/
theorem C4_amended_witness :
    (draw ["A", "B"] (fun _ => ["A", "B"]) = .error .DrawFailed ↔
      ∀ j, j ≤ 1000 → isDerangement ["A", "B"] ((fun _ => ["A", "B"]) j) = false) ∧
    ((∀ j, j ≤ 1000 → (fun _ => ["A", "B"]) j = (fun _ => (["A", "B"] : List String)) j) →
      draw ["A", "B"] (fun _ => ["A", "B"]) = draw ["A", "B"] (fun _ => ["A", "B"])) ∧
    (∀ e, (drawGroup gCreated (fun _ => ["A", "B"])).2 = some e →
      (drawGroup gCreated (fun _ => ["A", "B"])).1 = gCreated) :=
  C4_amended_bounded_retries ["A", "B"] (fun _ => ["A", "B"]) (fun _ => ["A", "B"])
    gCreated (by decide)

/-! ## C2: the drawn-implies-complete-derangement invariant -/

/-- The spec's invariant body: `assignments` is a complete derangement over
`participants` — keys enumerate the participants, values enumerate the
participants, there is one entry per participant, and nobody is assigned to
themselves. -/
def completeDerangement (g : Group) : Prop :=
  (g.assignments.map Prod.fst).Perm g.participants ∧
  (g.assignments.map Prod.snd).Perm g.participants ∧
  g.assignments.length = g.participants.length ∧
  ∀ kv ∈ g.assignments, kv.1 ≠ kv.2

/-- The claimed invariant: a drawn group carries a complete derangement. -/
def derangementInv (g : Group) : Prop :=
  g.drawn = true → completeDerangement g

/-- The weaker property that survives a post-draw confirmation clearing:
`assignments` is an injective partial pairing of participants with no
fixed points (but possibly fewer than `len(participants)` entries). -/
def partialDerangement (g : Group) : Prop :=
  (g.assignments.map Prod.fst).Nodup ∧
  (g.assignments.map Prod.snd).Nodup ∧
  ∀ kv ∈ g.assignments, kv.1 ∈ g.participants ∧ kv.2 ∈ g.participants ∧ kv.1 ≠ kv.2

instance (g : Group) : Decidable (completeDerangement g) := by
  unfold completeDerangement
  infer_instance

instance (g : Group) : Decidable (derangementInv g) := by
  unfold derangementInv
  infer_instance

instance (g : Group) : Decidable (partialDerangement g) := by
  unfold partialDerangement
  infer_instance

theorem completeDerangement_congr (g g' : Group)
    (ha : g'.assignments = g.assignments) (hp : g'.participants = g.participants) :
    completeDerangement g → completeDerangement g' := by
  intro h
  unfold completeDerangement at *
  rw [ha, hp]
  exact h

theorem confirm_fields (hash : String → String) (g : Group) (n p : String) :
    (confirmParticipation hash g n p).1.participants = g.participants ∧
    (confirmParticipation hash g n p).1.drawn = g.drawn ∧
    (confirmParticipation hash g n p).1.assignments = g.assignments := by
  unfold confirmParticipation
  cases dictGet g.participants_confirmed n with
  | some v => exact ⟨rfl, rfl, rfl⟩
  | none =>
    by_cases h1 : pyStrip p = ""
    · simp [h1]
    · simp only [h1, if_false]
      split <;> exact ⟨rfl, rfl, rfl⟩

theorem addParticipant_drawn_cases (g : Group) (x : String) :
    (g.drawn = true → addParticipant g x = (g, some .AlreadyDrawn)) ∧
    (addParticipant g x).1.drawn = g.drawn := by
  constructor
  · intro h
    unfold addParticipant
    rw [if_pos h]
  · simp only [addParticipant]
    split
    · rfl
    · split
      · rfl
      · split <;> rfl

theorem removeParticipant_drawn_cases (g : Group) (x : String) :
    (g.drawn = true → removeParticipant g x = (g, some .AlreadyDrawn)) ∧
    (removeParticipant g x).1.drawn = g.drawn := by
  constructor
  · intro h
    unfold removeParticipant
    rw [if_pos h]
  · unfold removeParticipant
    split <;> rfl

theorem renameParticipant_drawn_cases (g : Group) (old x : String) :
    (g.drawn = true → renameParticipant g old x = (g, some .AlreadyDrawn)) ∧
    (renameParticipant g old x).1.drawn = g.drawn := by
  constructor
  · intro h
    unfold renameParticipant
    rw [if_pos h]
  · simp only [renameParticipant]
    split
    · rfl
    · split
      · rfl
      · split <;> rfl

theorem renameGroup_fields (g : Group) (x : String) :
    (renameGroup g x).1.participants = g.participants ∧
    (renameGroup g x).1.drawn = g.drawn ∧
    (renameGroup g x).1.assignments = g.assignments := by
  simp only [renameGroup]
  split <;> exact ⟨rfl, rfl, rfl⟩

theorem updateCreatorPassword_fields (hash : String → String) (g : Group) (a b : String) :
    (updateCreatorPassword hash g a b).1.participants = g.participants ∧
    (updateCreatorPassword hash g a b).1.drawn = g.drawn ∧
    (updateCreatorPassword hash g a b).1.assignments = g.assignments := by
  unfold updateCreatorPassword
  split
  · exact ⟨rfl, rfl, rfl⟩
  · split <;> exact ⟨rfl, rfl, rfl⟩

/-- The draw, when it succeeds, installs a complete derangement. -/
theorem drawGroup_establishes (g : Group) (s : Nat → List String)
    (hperm : ∀ k, (s k).Perm g.participants)
    (hInv : derangementInv g) : derangementInv (drawGroup g s).1 := by
  unfold drawGroup
  by_cases hd : g.drawn
  · rw [if_pos hd]
    exact hInv
  · rw [if_neg hd]
    cases hdr : draw g.participants s with
    | ok asg =>
      intro _
      obtain ⟨h2, a, hap, hder, rfl⟩ := draw_ok_spec _ _ _ hperm hdr
      obtain ⟨hf, hs, hl, hfix⟩ := zip_derangement_complete g.participants a hap hder
      exact ⟨hf, hs, hl, hfix⟩
    | error e =>
      intro hcon
      exact absurd hcon (by simpa using hd)

/-- Clearing a confirmation on a drawn group keeps a partial derangement. -/
theorem clearConfirmation_partial (g : Group) (p : String)
    (hd : g.drawn = true) (hc : completeDerangement g) (hnd : g.participants.Nodup) :
    (clearConfirmation g p).drawn = true ∧ partialDerangement (clearConfirmation g p) := by
  obtain ⟨hfst, hsnd, hlen, hnofix⟩ := hc
  have hsub : (clearConfirmation g p).assignments.Sublist g.assignments := by
    unfold clearConfirmation
    exact (List.filter_sublist _).trans (dictPop_sublist g.assignments p)
  refine ⟨hd, ?_, ?_, ?_⟩
  · exact (hfst.nodup_iff.mpr hnd).sublist (hsub.map Prod.fst)
  · exact (hsnd.nodup_iff.mpr hnd).sublist (hsub.map Prod.snd)
  · intro kv hkv
    have hmem : kv ∈ g.assignments := hsub.subset hkv
    refine ⟨?_, ?_, hnofix kv hmem⟩
    · exact hfst.mem_iff.mp (List.mem_map_of_mem Prod.fst hmem)
    · exact hsnd.mem_iff.mp (List.mem_map_of_mem Prod.snd hmem)

/-- C2 counterexample: starting from a freshly created two-person group,
confirming both members, drawing the swap derangement and then clearing
one member's confirmation yields a reachable state with `drawn = true`
whose `assignments` is empty — not a complete derangement over the
two-person roster, refuting preservation of the claimed invariant by the
clear-confirmation operation. -/
theorem C2_counterexample :
    createGroup hashId "G" "pw" ["Ana", "Bruno"] "g1" [] = ([("g1", gCreated)], none) ∧
    (clearConfirmation
        (drawGroup
          (confirmParticipation hashId
            (confirmParticipation hashId gCreated "Ana" "a").1 "Bruno" "b").1
          sSwapAB).1 "Ana").drawn = true ∧
    (clearConfirmation
        (drawGroup
          (confirmParticipation hashId
            (confirmParticipation hashId gCreated "Ana" "a").1 "Bruno" "b").1
          sSwapAB).1 "Ana").assignments = [] ∧
    (clearConfirmation
        (drawGroup
          (confirmParticipation hashId
            (confirmParticipation hashId gCreated "Ana" "a").1 "Bruno" "b").1
          sSwapAB).1 "Ana").participants = ["Ana", "Bruno"] ∧
    ¬ completeDerangement
        (clearConfirmation
          (drawGroup
            (confirmParticipation hashId
              (confirmParticipation hashId gCreated "Ana" "a").1 "Bruno" "b").1
            sSwapAB).1 "Ana") := by
  exact ⟨by decide, by decide, by decide, by decide, by decide⟩

/-- C2 (amended): a successful draw establishes the complete-derangement
invariant, and every operation except clearing a confirmation preserves
it; clearing a participant's confirmation keeps `drawn = true` and the
roster but only guarantees the weaker partial-derangement property — the
assignments stay an injective, fixed-point-free pairing of participants,
possibly with fewer than `len(participants)` entries. -/
theorem C2_amended_invariant (hash : String → String) (g : Group)
    (nm pw old nw p custom generated : String) (s : Nat → List String)
    (hnd : g.participants.Nodup) (hperm : ∀ k, (s k).Perm g.participants)
    (hInv : derangementInv g) :
    derangementInv (drawGroup g s).1 ∧
    derangementInv (confirmParticipation hash g nm pw).1 ∧
    derangementInv (resetDraw g) ∧
    derangementInv (renameGroup g nw).1 ∧
    derangementInv (updateCreatorPassword hash g pw nw).1 ∧
    derangementInv (issueTempPassword hash g p custom generated) ∧
    derangementInv (addParticipant g nw).1 ∧
    derangementInv (removeParticipant g p).1 ∧
    derangementInv (renameParticipant g old nw).1 ∧
    (g.drawn = true → completeDerangement g →
      (clearConfirmation g p).drawn = true ∧ partialDerangement (clearConfirmation g p)) := by
  refine ⟨drawGroup_establishes g s hperm hInv, ?_, ?_, ?_, ?_, ?_, ?_, ?_, ?_,
    fun hd hc => clearConfirmation_partial g p hd hc hnd⟩
  · obtain ⟨h1, h2, h3⟩ := confirm_fields hash g nm pw
    intro hd
    exact completeDerangement_congr _ _ h3 h1 (hInv (h2 ▸ hd))
  · intro hd
    cases hd
  · obtain ⟨h1, h2, h3⟩ := renameGroup_fields g nw
    intro hd
    exact completeDerangement_congr _ _ h3 h1 (hInv (h2 ▸ hd))
  · obtain ⟨h1, h2, h3⟩ := updateCreatorPassword_fields hash g pw nw
    intro hd
    exact completeDerangement_congr _ _ h3 h1 (hInv (h2 ▸ hd))
  · intro hd
    exact completeDerangement_congr _ g rfl rfl (hInv hd)
  · obtain ⟨h1, h2⟩ := addParticipant_drawn_cases g nw
    intro hd
    rw [h1 (h2 ▸ hd)]
    exact hInv (h2 ▸ hd)
  · obtain ⟨h1, h2⟩ := removeParticipant_drawn_cases g p
    intro hd
    rw [h1 (h2 ▸ hd)]
    exact hInv (h2 ▸ hd)
  · obtain ⟨h1, h2⟩ := renameParticipant_drawn_cases g old nw
    intro hd
    rw [h1 (h2 ▸ hd)]
    exact hInv (h2 ▸ hd)

/-- Witness for C2 (amended) on the drawn two-person swap group. -/
theorem C2_amended_witness :
    derangementInv (drawGroup gDrawn sSwapAB).1 ∧
    derangementInv (confirmParticipation hashId gDrawn "Ana" "x").1 ∧
    derangementInv (resetDraw gDrawn) ∧
    derangementInv (renameGroup gDrawn "H").1 ∧
    derangementInv (updateCreatorPassword hashId gDrawn "x" "H").1 ∧
    derangementInv (issueTempPassword hashId gDrawn "Ana" "t" "u") ∧
    derangementInv (addParticipant gDrawn "H").1 ∧
    derangementInv (removeParticipant gDrawn "Ana").1 ∧
    derangementInv (renameParticipant gDrawn "Carla" "H").1 ∧
    (gDrawn.drawn = true → completeDerangement gDrawn →
      (clearConfirmation gDrawn "Ana").drawn = true ∧
      partialDerangement (clearConfirmation gDrawn "Ana")) :=
  C2_amended_invariant hashId gDrawn "Ana" "x" "Carla" "H" "Ana" "t" "u" sSwapAB
    (by decide)
    (fun _ => (by decide : (["Bruno", "Ana"] : List String).Perm ["Ana", "Bruno"]))
    (fun _ => (by decide : completeDerangement gDrawn))

/-! ## C6 -/

/-- An undrawn group in which `Ana` holds a pending temporary password
whose digest (under `hashId`) is `t`. -/
def gPend : Group :=
  { name := "G", creator_password_hash := "pw", participants := ["Ana", "Bruno"],
    participants_confirmed := [], pending_passwords := [("Ana", "t")],
    drawn := false, assignments := [] }

/-- C6: the confirmation flow fails `AlreadyConfirmed` when the name holds
a confirmed hash, `EmptyPassword` when the password is blank,
`MustUseIssuedPassword` when a pending temporary password exists and the
supplied password does not hash to it; otherwise it stores the password's
hash under the name and drops the name from the pending map.  Failures
leave the group unchanged. -/
theorem C6_confirm_flow (hash : String → String) (g : Group) (nm pw : String) :
    ((dictGet g.participants_confirmed nm).isSome = true →
      confirmParticipation hash g nm pw = (g, some .AlreadyConfirmed)) ∧
    (dictGet g.participants_confirmed nm = none → pyStrip pw = "" →
      confirmParticipation hash g nm pw = (g, some .EmptyPassword)) ∧
    (∀ ph, dictGet g.participants_confirmed nm = none → pyStrip pw ≠ "" →
      dictGet g.pending_passwords nm = some ph → hash pw ≠ ph →
      confirmParticipation hash g nm pw = (g, some .MustUseIssuedPassword)) ∧
    (dictGet g.participants_confirmed nm = none → pyStrip pw ≠ "" →
      (dictGet g.pending_passwords nm = none ∨
        dictGet g.pending_passwords nm = some (hash pw)) →
      confirmParticipation hash g nm pw =
        ({ g with
            participants_confirmed := dictSet g.participants_confirmed nm (hash pw)
            pending_passwords := dictPop g.pending_passwords nm }, none)) := by
  refine ⟨?_, ?_, ?_, ?_⟩
  · intro h
    cases hc : dictGet g.participants_confirmed nm with
    | none => rw [hc] at h; cases h
    | some v => simp [confirmParticipation, hc]
  · intro hc hp
    simp [confirmParticipation, hc, hp]
  · intro ph hc hp hpend hne
    simp [confirmParticipation, hc, hp, hpend, Ne.symm hne]
  · intro hc hp hor
    rcases hor with h | h <;> simp [confirmParticipation, hc, hp, h]

/-- Witness for C6: all four branches exercised on concrete groups. -/
theorem C6_witness :
    confirmParticipation hashId gDrawn "Ana" "x" = (gDrawn, some .AlreadyConfirmed) ∧
    confirmParticipation hashId gCreated "Ana" " " = (gCreated, some .EmptyPassword) ∧
    confirmParticipation hashId gPend "Ana" "z" = (gPend, some .MustUseIssuedPassword) ∧
    confirmParticipation hashId gCreated "Ana" "x1" =
      ({ gCreated with
          participants_confirmed := [("Ana", "x1")], pending_passwords := [] }, none) := by
  refine ⟨?_, ?_, ?_, ?_⟩
  · exact (C6_confirm_flow hashId gDrawn "Ana" "x").1 (by decide)
  · exact (C6_confirm_flow hashId gCreated "Ana" " ").2.1 (by decide) (by decide)
  · exact (C6_confirm_flow hashId gPend "Ana" "z").2.2.1 "t"
      (by decide) (by decide) (by decide) (by decide)
  · exact (C6_confirm_flow hashId gCreated "Ana" "x1").2.2.2
      (by decide) (by decide) (Or.inl (by decide))

/-! ## C7 -/

/-- C7 counterexample: on an undrawn group whose selected name has no
confirmed hash, the reveal flow does not fail `NotConfirmed` as the claim's
first clause demands — the `if draw_done:` guard encloses the whole flow,
so the result is `NotDrawnYet`. -/
theorem C7_counterexample :
    dictGet gCreated.participants_confirmed "Ana" = none ∧
    gCreated.drawn = false ∧
    revealAssignment hashId gCreated "Ana" "x" = .error .NotDrawnYet ∧
    revealAssignment hashId gCreated "Ana" "x" ≠ .error .NotConfirmed := by
  decide

/-- C7 (amended): the reveal flow checks `drawn` first — an undrawn group
always yields `NotDrawnYet`; on a drawn group it fails `NotConfirmed`
without a confirmed hash, `WrongPassword` on a digest mismatch,
`NotDrawnYet` when the name is absent from the assignments (or paired with
the empty string, which Python truthiness treats as missing), and
otherwise returns the recipient.  The operation never modifies the group
(it is read-only by construction). -/
theorem C7_amended_reveal_flow (hash : String → String) (g : Group) (nm pw : String) :
    (g.drawn = false → revealAssignment hash g nm pw = .error .NotDrawnYet) ∧
    (g.drawn = true → dictGet g.participants_confirmed nm = none →
      revealAssignment hash g nm pw = .error .NotConfirmed) ∧
    (∀ stored, g.drawn = true → dictGet g.participants_confirmed nm = some stored →
      hash pw ≠ stored → revealAssignment hash g nm pw = .error .WrongPassword) ∧
    (∀ stored, g.drawn = true → dictGet g.participants_confirmed nm = some stored →
      hash pw = stored → dictGet g.assignments nm = none →
      revealAssignment hash g nm pw = .error .NotDrawnYet) ∧
    (∀ stored amigo, g.drawn = true → dictGet g.participants_confirmed nm = some stored →
      hash pw = stored → dictGet g.assignments nm = some amigo → amigo ≠ "" →
      revealAssignment hash g nm pw = .ok amigo) := by
  refine ⟨?_, ?_, ?_, ?_, ?_⟩
  · intro hd
    simp [revealAssignment, hd]
  · intro hd hc
    simp [revealAssignment, hd, hc]
  · intro stored hd hc hne
    simp [revealAssignment, hd, hc, hne]
  · intro stored hd hc heq ha
    simp [revealAssignment, hd, hc, heq, ha]
  · intro stored amigo hd hc heq ha hne
    simp [revealAssignment, hd, hc, heq, ha, hne]

/-- Witness for C7 (amended): revealing on the drawn swap group with the
correct password returns the recipient. -/
theorem C7_amended_witness : revealAssignment hashId gDrawn "Ana" "a" = .ok "Bruno" :=
  (C7_amended_reveal_flow hashId gDrawn "Ana" "a").2.2.2.2 "a" "Bruno"
    (by decide) (by decide) (by decide) (by decide) (by decide)

/-! ## C8 -/

/-- C8: clearing a participant's confirmation on a drawn group removes
their confirmed and pending hashes and removes them both as key and as
value of the assignments; every other confirmed/pending entry and every
assignment entry between remaining participants is untouched, and the
roster, the `drawn` flag, the group name and the creator hash are
unchanged — a partial invalidation, not a re-draw. -/
theorem C8_clear_partial_invalidation (g : Group) (p : String) (_hd : g.drawn = true) :
    dictGet (clearConfirmation g p).participants_confirmed p = none ∧
    dictGet (clearConfirmation g p).pending_passwords p = none ∧
    (∀ q, q ≠ p → dictGet (clearConfirmation g p).participants_confirmed q =
      dictGet g.participants_confirmed q) ∧
    (∀ q, q ≠ p → dictGet (clearConfirmation g p).pending_passwords q =
      dictGet g.pending_passwords q) ∧
    (∀ kv, kv ∈ (clearConfirmation g p).assignments ↔
      kv ∈ g.assignments ∧ kv.1 ≠ p ∧ kv.2 ≠ p) ∧
    (clearConfirmation g p).participants = g.participants ∧
    (clearConfirmation g p).drawn = g.drawn ∧
    (clearConfirmation g p).name = g.name ∧
    (clearConfirmation g p).creator_password_hash = g.creator_password_hash := by
  refine ⟨dictGet_dictPop_self _ _, dictGet_dictPop_self _ _,
    fun q hq => dictGet_dictPop_ne _ _ _ hq, fun q hq => dictGet_dictPop_ne _ _ _ hq,
    ?_, rfl, rfl, rfl, rfl⟩
  intro kv
  simp [clearConfirmation, List.mem_filter, mem_dictPop, and_assoc]

/-- Witness for C8 on the drawn swap group, clearing `Ana`. -/
theorem C8_witness :
    dictGet (clearConfirmation gDrawn "Ana").participants_confirmed "Ana" = none ∧
    dictGet (clearConfirmation gDrawn "Ana").pending_passwords "Ana" = none ∧
    (∀ q, q ≠ "Ana" → dictGet (clearConfirmation gDrawn "Ana").participants_confirmed q =
      dictGet gDrawn.participants_confirmed q) ∧
    (∀ q, q ≠ "Ana" → dictGet (clearConfirmation gDrawn "Ana").pending_passwords q =
      dictGet gDrawn.pending_passwords q) ∧
    (∀ kv, kv ∈ (clearConfirmation gDrawn "Ana").assignments ↔
      kv ∈ gDrawn.assignments ∧ kv.1 ≠ "Ana" ∧ kv.2 ≠ "Ana") ∧
    (clearConfirmation gDrawn "Ana").participants = gDrawn.participants ∧
    (clearConfirmation gDrawn "Ana").drawn = gDrawn.drawn ∧
    (clearConfirmation gDrawn "Ana").name = gDrawn.name ∧
    (clearConfirmation gDrawn "Ana").creator_password_hash = gDrawn.creator_password_hash :=
  C8_clear_partial_invalidation gDrawn "Ana" (by decide)

/-! ## C3 -/

/-- Creation keeps the lowercased roster duplicate-free: the `seen` set of
lowercased normalized names guards every addition to the accumulator. -/
theorem collect_ci_nodup :
    ∀ (lines normAcc dupAcc seen : List String),
      (∀ x ∈ normAcc, pyLower x ∈ seen) → (normAcc.map pyLower).Nodup →
      ((collectLoop lines normAcc dupAcc seen).1.map pyLower).Nodup := by
  intro lines
  induction lines with
  | nil => intro nA dA seen _ h2; simpa [collectLoop] using h2
  | cons raw rest ih =>
    intro nA dA seen h1 h2
    simp only [collectLoop]
    split
    · exact ih nA dA seen h1 h2
    · split
      · exact ih nA _ seen h1 h2
      · next hns =>
        apply ih
        · intro x hx
          rcases List.mem_append.mp hx with hx | hx
          · exact List.mem_append_left _ (h1 x hx)
          · rw [List.mem_singleton] at hx
            subst hx
            exact List.mem_append_right _ (List.mem_singleton.mpr rfl)
        · rw [List.map_append]
          refine List.Nodup.append h2 (by simp) ?_
          intro a ha hb
          rw [List.map_singleton, List.mem_singleton] at hb
          subst hb
          obtain ⟨x, hx, hxe⟩ := List.mem_map.mp ha
          exact hns (hxe ▸ h1 x hx)

/-- C3 counterexample: starting from the freshly created group with roster
`Ana`, `Bruno`, adding `ana` succeeds — the add-participant duplicate check
is plain case-sensitive membership — so the roster ends up holding two
names that differ only by letter case, refuting the claimed at-all-times
case-insensitive uniqueness. -/
theorem C3_counterexample :
    createGroup hashId "G" "pw" ["Ana", "Bruno"] "g1" [] = ([("g1", gCreated)], none) ∧
    addParticipant gCreated "ana" =
      ({ gCreated with participants := ["Ana", "Bruno", "ana"] }, none) ∧
    pyLower "ana" = pyLower "Ana" ∧
    ("ana" : String) ≠ "Ana" := by
  decide

/-- C3 (amended): only group creation enforces case-insensitive
uniqueness of the roster; the add-participant and rename-participant
operations reject a candidate only on an exact (case-sensitive) match
against the roster, and accept a stripped nonempty name that is not
already present verbatim — even one differing from an existing
participant only by letter case. -/
theorem C3_amended_case_sensitivity
    (hash : String → String) (g : Group) (x old nw gname pw gid : String)
    (lines : List String) (data st : Store) :
    (createGroup hash gname pw lines gid data = (st, none) →
      ∀ g', dictGet st gid = some g' → (g'.participants.map pyLower).Nodup) ∧
    (g.drawn = false → pyStrip x ≠ "" → pyStrip x ∈ g.participants →
      addParticipant g x = (g, some .DuplicateName)) ∧
    (g.drawn = false → pyStrip x ≠ "" → pyStrip x ∉ g.participants →
      addParticipant g x = ({ g with participants := g.participants ++ [pyStrip x] }, none)) ∧
    (g.drawn = false → pyStrip nw ≠ "" → pyStrip nw ∈ g.participants →
      renameParticipant g old nw = (g, some .DuplicateName)) ∧
    (g.drawn = false → pyStrip nw ≠ "" → pyStrip nw ∉ g.participants →
      renameParticipant g old nw =
        ({ g with
            participants := replaceFirst g.participants old (pyStrip nw)
            participants_confirmed := renameKey g.participants_confirmed old (pyStrip nw)
            pending_passwords := renameKey g.pending_passwords old (pyStrip nw)
            assignments :=
              (renameKey g.assignments old (pyStrip nw)).map
                (fun kv => if kv.2 = old then (kv.1, pyStrip nw) else kv) }, none)) := by
  refine ⟨?_, ?_, ?_, ?_, ?_⟩
  · intro h g' hg'
    simp only [createGroup] at h
    split at h
    · simp at h
    · split at h
      · simp at h
      · split at h
        · simp at h
        · split at h
          · simp at h
          · injection h with h1 h2
            subst h1
            rw [dictGet_dictSet_self] at hg'
            injection hg' with hg'
            subst hg'
            exact collect_ci_nodup lines [] [] [] (by simp) (by simp)
  · intro hd hne hmem
    simp [addParticipant, hd, hne, hmem]
  · intro hd hne hmem
    simp [addParticipant, hd, hne, hmem]
  · intro hd hne hmem
    simp [renameParticipant, hd, hne, hmem]
  · intro hd hne hmem
    simp [renameParticipant, hd, hne, hmem]

/-- Witness for C3 (amended): the created roster is case-insensitively
duplicate-free, adding or renaming to the verbatim name `Bruno` is
rejected, adding the fresh name `Carla` succeeds, and renaming `Bruno` to
`ana` — a name differing from the participant `Ana` only by letter case —
also succeeds. -/
theorem C3_amended_witness :
    (gCreated.participants.map pyLower).Nodup ∧
    addParticipant gCreated "Bruno" = (gCreated, some .DuplicateName) ∧
    addParticipant gCreated "Carla" =
      ({ gCreated with participants := ["Ana", "Bruno", "Carla"] }, none) ∧
    renameParticipant gCreated "Ana" "Bruno" = (gCreated, some .DuplicateName) ∧
    renameParticipant gCreated "Bruno" "ana" =
      ({ gCreated with participants := ["Ana", "ana"] }, none) ∧
    pyLower "ana" = pyLower "Ana" := by
  refine ⟨?_, ?_, ?_, ?_, ?_, by decide⟩
  · exact (C3_amended_case_sensitivity hashId gCreated "x" "x" "x" "G" "pw" "g1"
      ["Ana", "Bruno"] [] [("g1", gCreated)]).1 (by decide) gCreated (by decide)
  · exact (C3_amended_case_sensitivity hashId gCreated "Bruno" "x" "x" "G" "pw" "g1"
      [] [] []).2.1 (by decide) (by decide) (by decide)
  · exact (C3_amended_case_sensitivity hashId gCreated "Carla" "x" "x" "G" "pw" "g1"
      [] [] []).2.2.1 (by decide) (by decide) (by decide)
  · exact (C3_amended_case_sensitivity hashId gCreated "x" "Ana" "Bruno" "G" "pw" "g1"
      [] [] []).2.2.2.1 (by decide) (by decide) (by decide)
  · exact (C3_amended_case_sensitivity hashId gCreated "x" "Bruno" "ana" "G" "pw" "g1"
      [] [] []).2.2.2.2 (by decide) (by decide) (by decide)

/-! ## C9 -/

/-- C9: group creation rejects an empty group name, a blank creator
password, case-insensitive duplicate participants (rejecting the whole
operation and listing the offending normalized names, e.g. `["ana","Ana"]`
is rejected listing `"Ana"`), and fewer than two surviving participants;
on success it registers, under the freshly generated identifier, a group
with `drawn = false` and empty confirmed/pending/assignment maps, leaving
every other stored group untouched. -/
theorem C9_create_group_validation (hash : String → String)
    (gname pw gid : String) (lines : List String) (data : Store) :
    (gname = "" → createGroup hash gname pw lines gid data = (data, some .EmptyGroupName)) ∧
    (gname ≠ "" → pyStrip pw = "" →
      createGroup hash gname pw lines gid data = (data, some .EmptyCreatorPassword)) ∧
    (gname ≠ "" → pyStrip pw ≠ "" → (collectLoop lines [] [] []).2 ≠ [] →
      createGroup hash gname pw lines gid data =
        (data, some (.DuplicateNames (sortStrings (collectLoop lines [] [] []).2)))) ∧
    createGroup hash "G" "pw" ["ana", "Ana"] gid data =
      (data, some (.DuplicateNames ["Ana"])) ∧
    (gname ≠ "" → pyStrip pw ≠ "" → (collectLoop lines [] [] []).2 = [] →
      (collectLoop lines [] [] []).1.length < 2 →
      createGroup hash gname pw lines gid data = (data, some .TooFewParticipants)) ∧
    (gname ≠ "" → pyStrip pw ≠ "" → (collectLoop lines [] [] []).2 = [] →
      2 ≤ (collectLoop lines [] [] []).1.length →
      createGroup hash gname pw lines gid data =
        (dictSet data gid
          { name := gname, creator_password_hash := hash pw,
            participants := (collectLoop lines [] [] []).1,
            participants_confirmed := [], pending_passwords := [],
            drawn := false, assignments := [] }, none) ∧
      dictGet (createGroup hash gname pw lines gid data).1 gid =
        some { name := gname, creator_password_hash := hash pw,
               participants := (collectLoop lines [] [] []).1,
               participants_confirmed := [], pending_passwords := [],
               drawn := false, assignments := [] } ∧
      ∀ q, q ≠ gid →
        dictGet (createGroup hash gname pw lines gid data).1 q = dictGet data q) := by
  refine ⟨?_, ?_, ?_, ?_, ?_, ?_⟩
  · intro h
    simp [createGroup, h]
  · intro h1 h2
    simp [createGroup, h1, h2]
  · intro h1 h2 h3
    simp [createGroup, h1, h2, h3]
  · rfl
  · intro h1 h2 h3 h4
    have hni : ¬(collectLoop lines [] [] []).2 ≠ [] := by simpa using h3
    simp only [createGroup]
    rw [if_neg h1, if_neg h2, if_neg hni, if_pos h4]
  · intro h1 h2 h3 h4
    have hni : ¬(collectLoop lines [] [] []).2 ≠ [] := by simpa using h3
    have hnl : ¬(collectLoop lines [] [] []).1.length < 2 := by omega
    have hE : createGroup hash gname pw lines gid data =
        (dictSet data gid
          { name := gname, creator_password_hash := hash pw,
            participants := (collectLoop lines [] [] []).1,
            participants_confirmed := [], pending_passwords := [],
            drawn := false, assignments := [] }, none) := by
      simp only [createGroup]
      rw [if_neg h1, if_neg h2, if_neg hni, if_neg hnl]
    refine ⟨hE, ?_, ?_⟩
    · rw [hE]
      exact dictGet_dictSet_self _ _ _
    · intro q hq
      rw [hE]
      exact dictGet_dictSet_ne _ _ _ _ hq

/-- Witness for C9: every validation branch and the success branch hit on
concrete inputs. -/
theorem C9_witness :
    createGroup hashId "" "pw" ["Ana", "Bruno"] "g1" [] = ([], some .EmptyGroupName) ∧
    createGroup hashId "G" " " ["Ana", "Bruno"] "g1" [] = ([], some .EmptyCreatorPassword) ∧
    createGroup hashId "G" "pw" ["ana", "Ana"] "g1" [] = ([], some (.DuplicateNames ["Ana"])) ∧
    createGroup hashId "G" "pw" ["Ana"] "g1" [] = ([], some .TooFewParticipants) ∧
    createGroup hashId "G" "pw" ["Ana", "Bruno"] "g1" [] = ([("g1", gCreated)], none) ∧
    dictGet [("g1", gCreated)] "g1" = some gCreated := by
  refine ⟨?_, ?_, ?_, ?_, ?_, ?_⟩
  · exact (C9_create_group_validation hashId "" "pw" "g1" ["Ana", "Bruno"] []).1 rfl
  · exact (C9_create_group_validation hashId "G" " " "g1" ["Ana", "Bruno"] []).2.1
      (by decide) (by decide)
  · exact (C9_create_group_validation hashId "G" "pw" "g1" ["ana", "Ana"] []).2.2.2.1
  · exact (C9_create_group_validation hashId "G" "pw" "g1" ["Ana"] []).2.2.2.2.1
      (by decide) (by decide) (by decide) (by decide)
  · exact ((C9_create_group_validation hashId "G" "pw" "g1" ["Ana", "Bruno"] []).2.2.2.2.2
      (by decide) (by decide) (by decide) (by decide)).1
  · exact ((C9_create_group_validation hashId "G" "pw" "g1" ["Ana", "Bruno"] []).2.2.2.2.2
      (by decide) (by decide) (by decide) (by decide)).2.1

/-! ## C10 -/

theorem insertNew_ne_nil (d : List String) (x : String) : insertNew d x ≠ [] := by
  unfold insertNew
  split
  · next h =>
    intro hnil
    rw [hnil] at h
    exact absurd h (List.not_mem_nil x)
  · simp

/-- If the collection loop reports no duplicates, it was also started with
an empty duplicate accumulator. -/
theorem collect_dups_nil :
    ∀ (lines nA dA seen : List String), (collectLoop lines nA dA seen).2 = [] → dA = [] := by
  intro lines
  induction lines with
  | nil => intro nA dA seen h; simpa [collectLoop] using h
  | cons raw rest ih =>
    intro nA dA seen h
    simp only [collectLoop] at h
    split at h
    · exact ih _ _ _ h
    · split at h
      · exact absurd (ih _ _ _ h) (insertNew_ne_nil _ _)
      · exact ih _ _ _ h

/-- When no duplicates are reported, the collected roster is exactly the
per-line normalization of the input, blank lines skipped. -/
theorem collect_no_dups_eq :
    ∀ (lines nA dA seen : List String), (collectLoop lines nA dA seen).2 = [] →
      (collectLoop lines nA dA seen).1 = nA ++ lines.filterMap normLine := by
  intro lines
  induction lines with
  | nil => intro nA dA seen _; simp [collectLoop]
  | cons raw rest ih =>
    intro nA dA seen h
    simp only [collectLoop] at h ⊢
    by_cases hcl : pyCleanName raw = ""
    · rw [if_pos hcl] at h ⊢
      rw [List.filterMap_cons, show normLine raw = none by simp [normLine, hcl]]
      exact ih _ _ _ h
    · rw [if_neg hcl] at h ⊢
      by_cases hseen : pyLower (pyTitle (pyCleanName raw)) ∈ seen
      · rw [if_pos hseen] at h
        exact absurd (collect_dups_nil _ _ _ _ h) (insertNew_ne_nil _ _)
      · rw [if_neg hseen] at h ⊢
        rw [List.filterMap_cons,
          show normLine raw = some (pyTitle (pyCleanName raw)) by simp [normLine, hcl],
          ih _ _ _ h]
        simp

/-- The group created from the textarea lines `"  ana   maria "`, `""`,
`"bruno"`. -/
def gEx : Group :=
  { name := "G", creator_password_hash := "pw", participants := ["Ana Maria", "Bruno"],
    participants_confirmed := [], pending_passwords := [], drawn := false,
    assignments := [] }

/-- C10: on successful creation, the stored roster is exactly the
line-by-line normalization of the input — each surviving line is
whitespace-trimmed, has internal whitespace runs collapsed to one space,
and is title-cased, while blank lines are skipped — so the persisted
roster can differ textually from what the creator typed, as the concrete
run with lines `"  ana   maria "`, `""`, `"bruno"` (stored as
`"Ana Maria"`, `"Bruno"`) shows. -/
theorem C10_normalized_roster (hash : String → String)
    (gname pw gid : String) (lines : List String) (data st : Store) :
    (createGroup hash gname pw lines gid data = (st, none) →
      ∀ g', dictGet st gid = some g' → g'.participants = lines.filterMap normLine) ∧
    createGroup hashId "G" "pw" ["  ana   maria ", "", "bruno"] "g1" [] =
      ([("g1", gEx)], none) ∧
    "Ana Maria" ∉ ["  ana   maria ", "", "bruno"] ∧
    normLine "  ana   maria " = some "Ana Maria" ∧
    normLine "" = none := by
  refine ⟨?_, by decide, by decide, by decide, by decide⟩
  intro h g' hg'
  simp only [createGroup] at h
  split at h
  · simp at h
  · split at h
    · simp at h
    · split at h
      · simp at h
      · next hdup =>
        split at h
        · simp at h
        · injection h with h1 h2
          subst h1
          rw [dictGet_dictSet_self] at hg'
          injection hg' with hg'
          subst hg'
          have hd : (collectLoop lines [] [] []).2 = [] := by simpa using hdup
          simpa using collect_no_dups_eq lines [] [] [] hd

/-- Witness for C10: the roster stored for the concrete textarea input is
its per-line normalization. -/
theorem C10_witness :
    gEx.participants = (["  ana   maria ", "", "bruno"]).filterMap normLine :=
  (C10_normalized_roster hashId "G" "pw" "g1" ["  ana   maria ", "", "bruno"] []
      [("g1", gEx)]).1 (by decide) gEx (by decide)

end AmigoSecreto
